import Mathlib

/-
Verification of the panel-cutting optimizer (src/app/core/optimizer.py) against
its design specification.

The Python module is shallowly embedded below.  Python floats are modelled as
exact rationals (all the arithmetic the optimizer performs on the concrete
inputs of interest is exact), Python lists as Lean lists, and the in-place
mutation of board objects as functional record updates.  Fields keep the
source names (camel-cased).  The stable descending sort used by Python
(list.sort with a key and reverse=True) is realised by a stable insertion
sort; a stable sort by a fixed key is unique, so the two agree.
-/

namespace PanelCut

/-- Schema model: edge-banding flags of a panel spec (app/schemas.py, EdgingSpec). -/
structure EdgingSpec where
  left : Bool := false
  right : Bool := false
  top : Bool := false
  bottom : Bool := false
deriving DecidableEq

/-- Schema model: one panel specification (app/schemas.py, PanelDetail). -/
structure PanelDetail where
  width : ℚ
  length : ℚ
  quantity : ℕ
  edging : EdgingSpec := {}
  alignment : String := "none"
  label : Option String := none
  notes : Option String := none
deriving DecidableEq

/-- Schema model: stock board selection (app/schemas.py, BoardSelection). -/
structure BoardSelection where
  coreType : String
  thicknessMM : ℕ
  company : String
  colorCode : String
  colorName : String
  colorHex : Option String := none
deriving DecidableEq

/-- Schema model: who supplies boards and edging (app/schemas.py, SupplyMode). -/
structure SupplyMode where
  clientSupply : Bool := false
  factorySupply : Bool := true
  clientBoardQty : Option ℕ := none
  clientEdgingMeters : Option ℚ := none
deriving DecidableEq

/-- Schema model: one stock sheet entry (app/schemas.py, StockSheet). -/
structure StockSheet where
  length : ℚ
  width : ℚ
  qty : ℕ
deriving DecidableEq

/-- Schema model: request options (app/schemas.py, Options); the kerf option
defaults to 3.0 in the schema. -/
structure Options where
  kerf : ℚ := 3
  labelsOnPanels : Bool := false
  useSingleSheet : Bool := false
  considerMaterial : Bool := false
  edgeBanding : Bool := true
  considerGrain : Bool := false
deriving DecidableEq

/-- Schema model: the full cutting request (app/schemas.py, CuttingRequest). -/
structure CuttingRequest where
  panels : List PanelDetail
  board : BoardSelection
  supply : SupplyMode
  stockSheets : Option (List StockSheet) := none
  options : Option Options := none
  projectName : Option String := none
  customerName : Option String := none
  customerEmail : Option String := none
  customerPhone : Option String := none
  notes : Option String := none
deriving DecidableEq

/-- Layout model: one placed panel (app/schemas.py, PlacedPanel).  The
optimizer always fills the label with a string, so it is modelled as String. -/
structure PlacedPanel where
  panelIndex : ℕ
  x : ℚ
  y : ℚ
  width : ℚ
  length : ℚ
  label : String
deriving DecidableEq

/-- Layout model: one cut segment (app/schemas.py, CutSegment). -/
structure CutSegment where
  id : ℕ
  orientation : String
  x1 : ℚ
  y1 : ℚ
  x2 : ℚ
  y2 : ℚ
  length : ℚ
deriving DecidableEq

/-- Layout model: one board layout (app/schemas.py, BoardLayout). -/
structure BoardLayout where
  boardNumber : ℕ
  boardWidth : ℚ
  boardLength : ℚ
  usedAreaMm2 : ℚ
  wasteAreaMm2 : ℚ
  efficiencyPercent : ℚ
  panelCount : ℕ
  panels : List PlacedPanel
  cuts : List CutSegment := []
deriving DecidableEq

/-- Stats model: the aggregate summary (app/schemas.py, OptimizationSummary). -/
structure OptimizationSummary where
  totalBoards : ℕ
  totalPanels : ℕ
  uniquePanelTypes : ℕ
  totalEdgingMeters : ℚ
  totalCuts : ℕ
  totalCutLength : ℚ
  totalWasteMm2 : ℚ
  totalWastePercent : ℚ
  boardWidth : ℚ
  boardLength : ℚ
deriving DecidableEq

/-- Configured default board width in mm (app/config.py, env default "1220"). -/
def DEFAULT_BOARD_WIDTH_MM : ℚ := 1220

/-- Configured default board length in mm (app/config.py, env default "2440"). -/
def DEFAULT_BOARD_LENGTH_MM : ℚ := 2440

/-- Configured default kerf in mm (app/config.py, env default "3"). -/
def DEFAULT_KERF_MM : ℚ := 3

/-- State stored by PanelOptimizer.__init__: board width, board length and
kerf.  The constructor performs no validation of any of the three values. -/
structure Config where
  boardWidth : ℚ
  boardLength : ℚ
  kerf : ℚ
deriving DecidableEq

/-- Board area stored by __init__ (self.board_area = board_width * board_length). -/
def Config.boardArea (cfg : Config) : ℚ := cfg.boardWidth * cfg.boardLength

/-- The configuration built by PanelOptimizer() with all defaults, as used by
optimize_cutting. -/
def defaultConfig : Config :=
  { boardWidth := DEFAULT_BOARD_WIDTH_MM
    boardLength := DEFAULT_BOARD_LENGTH_MM
    kerf := DEFAULT_KERF_MM }

/-- One expanded candidate (an entry of the dict list built by _expand_panels). -/
structure Cand where
  panelIndex : ℕ
  width : ℚ
  length : ℚ
  area : ℚ
  label : String
deriving DecidableEq

/-- Label given to a candidate: Python `p.label or f"Panel {idx+1}"`, where an
absent or empty label falls back to the default (Python `or` treats the empty
string as falsy). -/
def candLabel (idx : ℕ) (l : Option String) : String :=
  match l with
  | none => "Panel " ++ toString (idx + 1)
  | some s => if s = "" then "Panel " ++ toString (idx + 1) else s

/-- PanelOptimizer._expand_panels: unroll each spec into quantity many
candidates, remembering the originating index. -/
def expandPanels (panels : List PanelDetail) : List Cand :=
  panels.enum.flatMap fun ip =>
    List.replicate ip.2.quantity
      { panelIndex := ip.1
        width := ip.2.width
        length := ip.2.length
        area := ip.2.width * ip.2.length
        label := candLabel ip.1 ip.2.label }

/-- Insert a candidate into a list sorted by area descending, after all
entries of larger or equal area (stable insertion). -/
def insertCandDesc (c : Cand) : List Cand → List Cand
  | [] => [c]
  | d :: ds => if c.area ≤ d.area then d :: insertCandDesc c ds else c :: d :: ds

/-- The stable descending sort by area performed by
`expanded.sort(key=lambda p: p["area"], reverse=True)`. -/
def sortCandsDesc : List Cand → List Cand
  | [] => []
  | c :: cs => insertCandDesc c (sortCandsDesc cs)

/-- The placement record built by both _create_new_board and _place_panel. -/
def mkPlaced (c : Cand) (x y : ℚ) : PlacedPanel :=
  { panelIndex := c.panelIndex
    x := x
    y := y
    width := c.width
    length := c.length
    label := c.label }

/-- PanelOptimizer._can_place: inside the board on the right and top, and
separated from every existing placement by at least the kerf on some axis. -/
def canPlace (cfg : Config) (b : BoardLayout) (x y w l : ℚ) : Bool :=
  if x + w > cfg.boardWidth ∨ y + l > cfg.boardLength then false
  else b.panels.all fun p =>
    decide (x + w + cfg.kerf ≤ p.x) || decide (p.x + p.width + cfg.kerf ≤ x) ||
    decide (y + l + cfg.kerf ≤ p.y) || decide (p.y + p.length + cfg.kerf ≤ y)

/-- Python int(): truncation of a rational toward zero. -/
def pyInt (q : ℚ) : ℤ :=
  if 0 ≤ q.num then (q.num.toNat / q.den : ℕ) else -((q.num.natAbs / q.den : ℕ))

/-- Number of elements of Python range(0, int(maxStart) + 1, 10). -/
def gridCount (maxStart : ℚ) : ℕ :=
  ((pyInt maxStart + 1).toNat + 9) / 10

/-- The coordinates visited by one loop of _find_position:
range(0, int(maxStart) + 1, 10), as rationals. -/
def gridCoords (maxStart : ℚ) : List ℚ :=
  (List.range' 0 (gridCount maxStart) 10).map (fun n : ℕ => (n : ℚ))

/-- Inner x loop of _find_position for a fixed y. -/
def scanRow (cfg : Config) (b : BoardLayout) (w l y : ℚ) : List ℚ → Option (ℚ × ℚ)
  | [] => none
  | x :: xs =>
    if canPlace cfg b x y w l then some (x, y) else scanRow cfg b w l y xs

/-- Outer y loop of _find_position. -/
def scanRows (cfg : Config) (b : BoardLayout) (w l : ℚ) : List ℚ → Option (ℚ × ℚ)
  | [] => none
  | y :: ys =>
    match scanRow cfg b w l y (gridCoords (cfg.boardWidth - w)) with
    | some pos => some pos
    | none => scanRows cfg b w l ys

/-- PanelOptimizer._find_position: row-major raster scan on a 10 mm grid,
first feasible position wins. -/
def findPosition (cfg : Config) (b : BoardLayout) (c : Cand) : Option (ℚ × ℚ) :=
  scanRows cfg b c.width c.length (gridCoords (cfg.boardLength - c.length))

/-- PanelOptimizer._create_new_board: a fresh board with the candidate placed
at the origin, no feasibility check. -/
def createNewBoard (cfg : Config) (c : Cand) (number : ℕ) : BoardLayout :=
  { boardNumber := number
    boardWidth := cfg.boardWidth
    boardLength := cfg.boardLength
    usedAreaMm2 := c.area
    wasteAreaMm2 := cfg.boardArea - c.area
    efficiencyPercent := if cfg.boardArea ≠ 0 then c.area / cfg.boardArea * 100 else 0
    panelCount := 1
    panels := [mkPlaced c 0 0]
    cuts := [] }

/-- PanelOptimizer._place_panel: append the placement and update the running
statistics. -/
def placePanel (cfg : Config) (b : BoardLayout) (c : Cand) (x y : ℚ) : BoardLayout :=
  { b with
    panels := b.panels ++ [mkPlaced c x y]
    panelCount := b.panelCount + 1
    usedAreaMm2 := b.usedAreaMm2 + c.area
    wasteAreaMm2 := cfg.boardArea - (b.usedAreaMm2 + c.area)
    efficiencyPercent :=
      if cfg.boardArea ≠ 0 then (b.usedAreaMm2 + c.area) / cfg.boardArea * 100 else 0 }

/-- The inner loop of optimize over open boards: place the candidate on the
first board admitting a position, returning none when no board does. -/
def placeOnBoards (cfg : Config) (c : Cand) : List BoardLayout → Option (List BoardLayout)
  | [] => none
  | b :: bs =>
    match findPosition cfg b c with
    | some pos => some (placePanel cfg b c pos.1 pos.2 :: bs)
    | none => (placeOnBoards cfg c bs).map fun rest => b :: rest

/-- One iteration of the candidate loop of optimize: try the open boards, and
otherwise open a new board numbered len(boards) + 1. -/
def placeStep (cfg : Config) (boards : List BoardLayout) (c : Cand) : List BoardLayout :=
  match placeOnBoards cfg c boards with
  | some bs => bs
  | none => boards ++ [createNewBoard cfg c (boards.length + 1)]

/-- The distinct x coordinates that are a left or right edge of a placement,
sorted ascending and restricted to the interior of the board (the sorted(set)
plus the 0 < x < board_width guard of _compute_cuts_for_board). -/
def interiorXs (cfg : Config) (b : BoardLayout) : List ℚ :=
  (List.insertionSort (· ≤ ·)
      ((b.panels.flatMap fun p => [p.x, p.x + p.width]).dedup)).filter
    fun x => decide (0 < x ∧ x < cfg.boardWidth)

/-- The interior y edges, symmetrically. -/
def interiorYs (cfg : Config) (b : BoardLayout) : List ℚ :=
  (List.insertionSort (· ≤ ·)
      ((b.panels.flatMap fun p => [p.y, p.y + p.length]).dedup)).filter
    fun y => decide (0 < y ∧ y < cfg.boardLength)

/-- The vertical cut emitted for the i-th interior x edge. -/
def vCut (cfg : Config) (ix : ℕ × ℚ) : CutSegment :=
  { id := ix.1 + 1
    orientation := "V"
    x1 := ix.2
    y1 := 0
    x2 := ix.2
    y2 := cfg.boardLength
    length := cfg.boardLength }

/-- The horizontal cut emitted for the i-th interior y edge, ids continuing
after the vertical ones. -/
def hCut (cfg : Config) (off : ℕ) (iy : ℕ × ℚ) : CutSegment :=
  { id := off + iy.1 + 1
    orientation := "H"
    x1 := 0
    y1 := iy.2
    x2 := cfg.boardWidth
    y2 := iy.2
    length := cfg.boardWidth }

/-- PanelOptimizer._compute_cuts_for_board: one vertical cut per interior
x edge (ascending), then one horizontal cut per interior y edge (ascending),
ids counted from 1. -/
def computeCuts (cfg : Config) (b : BoardLayout) : BoardLayout :=
  { b with cuts :=
      (interiorXs cfg b).enum.map (vCut cfg) ++
      (interiorYs cfg b).enum.map (hCut cfg (interiorXs cfg b).length) }

/-- The aggregate statistics computed at the end of optimize. -/
def mkSummary (cfg : Config) (req : CuttingRequest) (boards : List BoardLayout) :
    OptimizationSummary :=
  let totalBoardArea : ℚ := (boards.length : ℚ) * cfg.boardArea
  let totalWaste : ℚ := (boards.map fun b => b.wasteAreaMm2).sum
  { totalBoards := boards.length
    totalPanels := (req.panels.map fun p => p.quantity).sum
    uniquePanelTypes := req.panels.length
    totalEdgingMeters := 0
    totalCuts := (boards.map fun b => b.cuts.length).sum
    totalCutLength := (boards.map fun b => (b.cuts.map fun c => c.length).sum).sum
    totalWasteMm2 := totalWaste
    totalWastePercent := if totalBoardArea ≠ 0 then totalWaste / totalBoardArea * 100 else 0
    boardWidth := cfg.boardWidth
    boardLength := cfg.boardLength }

/-- PanelOptimizer.optimize: expand, sort largest-area first, greedily place
each candidate, then derive the cut segments and the summary. -/
def optimize (cfg : Config) (req : CuttingRequest) :
    List BoardLayout × OptimizationSummary :=
  let expanded := sortCandsDesc (expandPanels req.panels)
  let boards := expanded.foldl (placeStep cfg) []
  let finished := boards.map (computeCuts cfg)
  (finished, mkSummary cfg req finished)

/-- Module-level optimize_cutting: builds PanelOptimizer() with the configured
defaults (ignoring every request field except panels) and runs optimize. -/
def optimize_cutting (req : CuttingRequest) :
    List BoardLayout × OptimizationSummary :=
  optimize defaultConfig req

/-! Basic predicates derived from the checks that _can_place performs. -/

/-- A placement lies fully within the board bounds. -/
def inBoundsP (cfg : Config) (p : PlacedPanel) : Prop :=
  0 ≤ p.x ∧ p.x + p.width ≤ cfg.boardWidth ∧ 0 ≤ p.y ∧ p.y + p.length ≤ cfg.boardLength

/-- Two placements are separated by at least k on some axis: one lies
entirely left of, right of, below, or above the other with a gap of at
least k.  This is exactly the per-placement disjunction _can_place tests. -/
def separatedP (k : ℚ) (p q : PlacedPanel) : Prop :=
  p.x + p.width + k ≤ q.x ∨ q.x + q.width + k ≤ p.x ∨
  p.y + p.length + k ≤ q.y ∨ q.y + q.length + k ≤ p.y

/-- The overlap notion of the specification, transcribed from its words: the
two rectangles, each expanded by k on all four sides, intersect in their
interiors. -/
def kerfExpandedOverlap (k : ℚ) (p q : PlacedPanel) : Prop :=
  p.x - k < q.x + q.width + k ∧ q.x - k < p.x + p.width + k ∧
  p.y - k < q.y + q.length + k ∧ q.y - k < p.y + p.length + k

/-- The feasibility predicate of the specification, transcribed from its
words: the candidate rectangle lies fully within board bounds, and for every
existing placement the axis separation STRICTLY exceeds the kerf on at least
one axis. -/
def specFeasibleStrict (cfg : Config) (b : BoardLayout) (x y w l : ℚ) : Prop :=
  (0 ≤ x ∧ x + w ≤ cfg.boardWidth ∧ 0 ≤ y ∧ y + l ≤ cfg.boardLength) ∧
  ∀ p ∈ b.panels, x + w + cfg.kerf < p.x ∨ p.x + p.width + cfg.kerf < x ∨
    y + l + cfg.kerf < p.y ∨ p.y + p.length + cfg.kerf < y

/-! The running invariant maintained on every open board. -/

/-- Invariant of a board throughout the packing loop: the accounting fields
agree with the placements, placements are pairwise separated by at least the
kerf on some axis, every placement after the first lies within bounds, and
the first placement sits at the origin. -/
structure BoardInv (cfg : Config) (b : BoardLayout) : Prop where
  waste_eq : b.wasteAreaMm2 = cfg.boardArea - b.usedAreaMm2
  used_eq : b.usedAreaMm2 = (b.panels.map fun p => p.width * p.length).sum
  eff_eq : b.efficiencyPercent = b.usedAreaMm2 / cfg.boardArea * 100
  count_eq : b.panelCount = b.panels.length
  pairwise_sep : b.panels.Pairwise (separatedP cfg.kerf)
  tail_inBounds : ∀ p ∈ b.panels.tail, inBoundsP cfg p
  head_origin : ∃ q qs, b.panels = q :: qs ∧ q.x = 0 ∧ q.y = 0

/-- Total number of placements across a list of boards. -/
def totalPlaced (boards : List BoardLayout) : ℕ :=
  (boards.map fun b => b.panels.length).sum

/-! Concrete inputs used by counterexamples and witnesses. -/

/-- A board selection value (its content is irrelevant to the optimizer). -/
def bselA : BoardSelection :=
  { coreType := "mdf", thicknessMM := 18, company := "Timsales",
    colorCode := "TS-101", colorName := "White Matt" }

/-- Scenario A request: one 600 by 400 panel, quantity 1. -/
def reqA : CuttingRequest :=
  { panels := [{ width := 600, length := 400, quantity := 1 }]
    board := bselA
    supply := {} }

/-- The single candidate expanded from reqA. -/
def candA : Cand :=
  { panelIndex := 0, width := 600, length := 400, area := 600 * 400,
    label := candLabel 0 none }

/-- The single finished board of the scenario A run. -/
def boardA : BoardLayout :=
  computeCuts defaultConfig (createNewBoard defaultConfig candA 1)

/-- Input refuting the both-sides kerf expansion reading: one 1217 by 15
panel, quantity 2; the second copy lands at (0, 20), a 5 mm gap. -/
def req17 : CuttingRequest :=
  { panels := [{ width := 1217, length := 15, quantity := 2 }]
    board := bselA
    supply := {} }

/-- The candidate expanded (twice) from req17. -/
def cand17 : Cand :=
  { panelIndex := 0, width := 1217, length := 15, area := 1217 * 15,
    label := candLabel 0 none }

/-- Board opened for the first copy. -/
def board17a : BoardLayout := createNewBoard defaultConfig cand17 1

/-- The same board after the second copy is placed at (0, 20). -/
def board17b : BoardLayout := placePanel defaultConfig board17a cand17 0 20

/-- A one-placement board state used to probe _can_place directly. -/
def bcex : BoardLayout :=
  { boardNumber := 1, boardWidth := 1220, boardLength := 2440,
    usedAreaMm2 := 70, wasteAreaMm2 := 2976730, efficiencyPercent := 0,
    panelCount := 1,
    panels := [{ panelIndex := 0, x := 0, y := 0, width := 7, length := 10,
                 label := "P" }],
    cuts := [] }

/-- A configuration violating every documented constraint. -/
def badConfig : Config := { boardWidth := 0, boardLength := -5, kerf := -2 }

/-- A one-panel request. -/
def reqOne : CuttingRequest :=
  { panels := [{ width := 10, length := 10, quantity := 1 }]
    board := bselA
    supply := {} }

/-- A request with an empty panel list. -/
def reqEmpty : CuttingRequest :=
  { panels := [], board := bselA, supply := {} }

/-- Shared panel list of the two requests that differ everywhere else. -/
def panelsX : List PanelDetail :=
  [{ width := 300, length := 200, quantity := 2, label := some "X" }]

/-- First request: explicit options with kerf 7, stock sheets, customer data. -/
def cr1 : CuttingRequest :=
  { panels := panelsX
    board := bselA
    supply := {}
    stockSheets := some [{ length := 2000, width := 1000, qty := 4 }]
    options := some { kerf := 7, labelsOnPanels := true }
    projectName := some "Alpha"
    customerName := some "Jo"
    customerEmail := some "jo@example.com" }

/-- Second request: same panels, everything else different. -/
def cr2 : CuttingRequest :=
  { panels := panelsX
    board := { coreType := "plywood", thicknessMM := 12, company := "Raiply",
               colorCode := "RP-101", colorName := "Natural" }
    supply := { clientSupply := true, factorySupply := false,
                clientBoardQty := some 3 }
    options := none
    customerPhone := some "+254700000000" }

/-- Request with a candidate oversized in both dimensions. -/
def reqBig : CuttingRequest :=
  { panels := [{ width := 3000, length := 3100, quantity := 1 }]
    board := bselA
    supply := {} }

/-- The oversized candidate. -/
def candBig : Cand :=
  { panelIndex := 0, width := 3000, length := 3100, area := 3000 * 3100,
    label := candLabel 0 none }

/-- The fallback board holding the oversized candidate. -/
def boardBig : BoardLayout :=
  computeCuts defaultConfig (createNewBoard defaultConfig candBig 1)

/-- The placement of the oversized candidate. -/
def pBig : PlacedPanel := mkPlaced candBig 0 0

/-! Geometry: pairwise separated, in-bounds rectangles cannot carry more
total area than the board.  Proved with the Lebesgue measure of the open
rectangles in the real plane. -/

/-- The open rectangle of a placement, in the real plane. -/
def rectSet (p : PlacedPanel) : Set (ℝ × ℝ) :=
  Set.Ioo (p.x : ℝ) ((p.x : ℝ) + (p.width : ℝ)) ×ˢ
    Set.Ioo (p.y : ℝ) ((p.y : ℝ) + (p.length : ℝ))

/-! Structure of the cut list (claim C6). -/

/-- x is a left or right edge of some placement on the board. -/
def isXEdge (b : BoardLayout) (x : ℚ) : Prop :=
  ∃ p ∈ b.panels, p.x = x ∨ p.x + p.width = x

/-- y is a bottom or top edge of some placement on the board. -/
def isYEdge (b : BoardLayout) (y : ℚ) : Prop :=
  ∃ p ∈ b.panels, p.y = y ∨ p.y + p.length = y

lemma separatedP_symm {k : ℚ} {p q : PlacedPanel} (h : separatedP k p q) :
    separatedP k q p := by
  rcases h with h | h | h | h
  · exact Or.inr (Or.inl h)
  · exact Or.inl h
  · exact Or.inr (Or.inr (Or.inr h))
  · exact Or.inr (Or.inr (Or.inl h))

/-- Separation by at least k is the same as saying that the two rectangles,
each expanded by half of k on all four sides, do not overlap. -/
lemma separatedP_iff_not_overlap_half {k : ℚ} {p q : PlacedPanel} :
    separatedP k p q ↔ ¬ kerfExpandedOverlap (k / 2) p q := by
  unfold separatedP kerfExpandedOverlap
  constructor
  · rintro (h | h | h | h) ⟨h1, h2, h3, h4⟩ <;> linarith
  · intro h
    by_contra hc
    push_neg at hc
    exact h ⟨by linarith [hc.2.1], by linarith [hc.1], by linarith [hc.2.2.2],
      by linarith [hc.2.2.1]⟩

lemma canPlace_eq_true {cfg : Config} {b : BoardLayout} {x y w l : ℚ} :
    canPlace cfg b x y w l = true ↔
      (x + w ≤ cfg.boardWidth ∧ y + l ≤ cfg.boardLength) ∧
      ∀ p ∈ b.panels, x + w + cfg.kerf ≤ p.x ∨ p.x + p.width + cfg.kerf ≤ x ∨
        y + l + cfg.kerf ≤ p.y ∨ p.y + p.length + cfg.kerf ≤ y := by
  rw [canPlace]
  split
  · rename_i h
    simp only [Bool.false_eq_true, false_iff]
    rintro ⟨⟨h1, h2⟩, -⟩
    rcases h with h | h
    · exact absurd h1 (not_le.mpr h)
    · exact absurd h2 (not_le.mpr h)
  · rename_i h
    push_neg at h
    simp only [List.all_eq_true, Bool.or_eq_true, decide_eq_true_eq]
    exact ⟨fun hall => ⟨h, fun p hp => by have := hall p hp; tauto⟩, fun hall p hp => by
      have := hall.2 p hp; tauto⟩

lemma gridCoords_nonneg {q x : ℚ} (hx : x ∈ gridCoords q) : 0 ≤ x := by
  rw [gridCoords, List.mem_map] at hx
  obtain ⟨n, hn, hnx⟩ := hx
  rw [← hnx]
  exact_mod_cast Nat.zero_le n

lemma scanRow_eq_some {cfg : Config} {b : BoardLayout} {w l y x y0 : ℚ}
    {xs : List ℚ} (h : scanRow cfg b w l y xs = some (x, y0)) :
    y0 = y ∧ x ∈ xs ∧ canPlace cfg b x y w l = true := by
  induction xs with
  | nil => simp [scanRow] at h
  | cons a as ih =>
    rw [scanRow] at h
    split at h
    · rename_i hc
      simp only [Option.some.injEq, Prod.mk.injEq] at h
      obtain ⟨rfl, rfl⟩ := h
      exact ⟨rfl, List.mem_cons_self a as, hc⟩
    · obtain ⟨h1, h2, h3⟩ := ih h
      exact ⟨h1, List.mem_cons_of_mem a h2, h3⟩

lemma scanRows_eq_some {cfg : Config} {b : BoardLayout} {w l x y : ℚ}
    {ys : List ℚ} (h : scanRows cfg b w l ys = some (x, y)) :
    y ∈ ys ∧ x ∈ gridCoords (cfg.boardWidth - w) ∧ canPlace cfg b x y w l = true := by
  induction ys with
  | nil => simp [scanRows] at h
  | cons a as ih =>
    rw [scanRows] at h
    split at h
    · rename_i pos heq
      obtain ⟨x0, y0⟩ := pos
      simp only [Option.some.injEq, Prod.mk.injEq] at h
      obtain ⟨rfl, rfl⟩ := h
      obtain ⟨rfl, h2, h3⟩ := scanRow_eq_some heq
      exact ⟨List.mem_cons_self _ _, h2, h3⟩
    · obtain ⟨h1, h2, h3⟩ := ih h
      exact ⟨List.mem_cons_of_mem a h1, h2, h3⟩

lemma findPosition_eq_some {cfg : Config} {b : BoardLayout} {c : Cand} {x y : ℚ}
    (h : findPosition cfg b c = some (x, y)) :
    0 ≤ x ∧ 0 ≤ y ∧ canPlace cfg b x y c.width c.length = true := by
  obtain ⟨h1, h2, h3⟩ := scanRows_eq_some h
  exact ⟨gridCoords_nonneg h2, gridCoords_nonneg h1, h3⟩

lemma effIf (u A : ℚ) : (if A ≠ 0 then u / A * 100 else 0) = u / A * 100 := by
  split
  · rfl
  · rename_i h
    rw [not_not] at h
    rw [h, div_zero, zero_mul]

lemma createNewBoard_inv (cfg : Config) (c : Cand) (n : ℕ)
    (hA : c.area = c.width * c.length) : BoardInv cfg (createNewBoard cfg c n) where
  waste_eq := rfl
  used_eq := by simp [createNewBoard, mkPlaced, hA]
  eff_eq := effIf c.area cfg.boardArea
  count_eq := rfl
  pairwise_sep := List.pairwise_singleton _ _
  tail_inBounds := by simp [createNewBoard]
  head_origin := ⟨mkPlaced c 0 0, [], rfl, rfl, rfl⟩

lemma placePanel_inv {cfg : Config} {b : BoardLayout} {c : Cand} {x y : ℚ}
    (hb : BoardInv cfg b) (hA : c.area = c.width * c.length)
    (hx : 0 ≤ x) (hy : 0 ≤ y)
    (hc : canPlace cfg b x y c.width c.length = true) :
    BoardInv cfg (placePanel cfg b c x y) := by
  obtain ⟨⟨hbx, hby⟩, hsep⟩ := canPlace_eq_true.mp hc
  obtain ⟨q, qs, hpanels, hq0, hq0'⟩ := hb.head_origin
  refine ⟨rfl, ?_, effIf _ _, ?_, ?_, ?_, ?_⟩
  · simp [placePanel, mkPlaced, hb.used_eq, hA]
  · simp [placePanel, hb.count_eq]
  · rw [placePanel]
    simp only [List.pairwise_append]
    refine ⟨hb.pairwise_sep, List.pairwise_singleton _ _, ?_⟩
    intro p hp r hr
    rw [List.mem_singleton] at hr
    subst hr
    have := hsep p hp
    apply separatedP_symm
    simp only [separatedP, mkPlaced]
    tauto
  · intro p hp
    rw [placePanel] at hp
    simp only [hpanels, List.cons_append, List.tail_cons, List.mem_append,
      List.mem_singleton] at hp
    rcases hp with hp | rfl
    · exact hb.tail_inBounds p (by rw [hpanels]; exact hp)
    · exact ⟨hx, hbx, hy, hby⟩
  · exact ⟨q, qs ++ [mkPlaced c x y], by rw [placePanel]; simp [hpanels], hq0, hq0'⟩

lemma placeOnBoards_inv {cfg : Config} {c : Cand} {boards bs : List BoardLayout}
    (hA : c.area = c.width * c.length)
    (hinv : ∀ b ∈ boards, BoardInv cfg b)
    (h : placeOnBoards cfg c boards = some bs) :
    ∀ b ∈ bs, BoardInv cfg b := by
  induction boards generalizing bs with
  | nil => simp [placeOnBoards] at h
  | cons b0 rest ih =>
    rw [placeOnBoards] at h
    split at h
    · rename_i pos heq
      obtain ⟨x, y⟩ := pos
      obtain ⟨hx, hy, hcp⟩ := findPosition_eq_some heq
      obtain rfl : placePanel cfg b0 c x y :: rest = bs := Option.some.injEq .. ▸ h
      intro b hb
      rcases List.mem_cons.mp hb with rfl | hb
      · exact placePanel_inv (hinv b0 (List.mem_cons_self b0 rest)) hA hx hy hcp
      · exact hinv b (List.mem_cons_of_mem b0 hb)
    · obtain ⟨rest2, hr2, rfl⟩ := Option.map_eq_some'.mp h
      intro b hb
      rcases List.mem_cons.mp hb with rfl | hb
      · exact hinv b (List.mem_cons_self b rest)
      · exact ih (fun b hb => hinv b (List.mem_cons_of_mem b0 hb)) hr2 b hb

lemma placeStep_inv {cfg : Config} {boards : List BoardLayout} {c : Cand}
    (hA : c.area = c.width * c.length)
    (hinv : ∀ b ∈ boards, BoardInv cfg b) :
    ∀ b ∈ placeStep cfg boards c, BoardInv cfg b := by
  rw [placeStep]
  split
  · rename_i bs heq
    exact placeOnBoards_inv hA hinv heq
  · intro b hb
    rcases List.mem_append.mp hb with hb | hb
    · exact hinv b hb
    · rw [List.mem_singleton] at hb
      subst hb
      exact createNewBoard_inv cfg c _ hA

lemma foldl_placeStep_inv {cfg : Config} {cands : List Cand}
    (hA : ∀ c ∈ cands, c.area = c.width * c.length) :
    ∀ boards, (∀ b ∈ boards, BoardInv cfg b) →
      ∀ b ∈ cands.foldl (placeStep cfg) boards, BoardInv cfg b := by
  induction cands with
  | nil => intro boards hinv; simpa using hinv
  | cons c cs ih =>
    intro boards hinv
    rw [List.foldl_cons]
    exact ih (fun d hd => hA d (List.mem_cons_of_mem c hd))
      (placeStep cfg boards c)
      (placeStep_inv (hA c (List.mem_cons_self c cs)) hinv)

/-! Membership and counting facts about expansion and sorting. -/

lemma mem_expandPanels {ps : List PanelDetail} {c : Cand} (h : c ∈ expandPanels ps) :
    ∃ s ∈ ps, c.width = s.width ∧ c.length = s.length ∧ c.area = s.width * s.length := by
  rw [expandPanels, List.mem_flatMap] at h
  obtain ⟨ip, hip, hc⟩ := h
  have hs : ip.2 ∈ ps := by
    have := List.mem_map_of_mem Prod.snd hip
    rwa [List.enum_map_snd] at this
  obtain rfl := List.eq_of_mem_replicate hc
  exact ⟨ip.2, hs, rfl, rfl, rfl⟩

lemma mem_expandPanels_area {ps : List PanelDetail} {c : Cand}
    (h : c ∈ expandPanels ps) : c.area = c.width * c.length := by
  obtain ⟨s, -, hw, hl, ha⟩ := mem_expandPanels h
  rw [hw, hl, ha]

lemma mem_insertCandDesc {c d : Cand} {l : List Cand} :
    d ∈ insertCandDesc c l ↔ d = c ∨ d ∈ l := by
  induction l with
  | nil => simp [insertCandDesc]
  | cons e es ih =>
    rw [insertCandDesc]
    split
    · simp only [List.mem_cons, ih]
      tauto
    · simp only [List.mem_cons]

lemma mem_sortCandsDesc {c : Cand} {l : List Cand} :
    c ∈ sortCandsDesc l ↔ c ∈ l := by
  induction l with
  | nil => simp [sortCandsDesc]
  | cons e es ih =>
    rw [sortCandsDesc, mem_insertCandDesc, ih, List.mem_cons]

lemma length_insertCandDesc (c : Cand) (l : List Cand) :
    (insertCandDesc c l).length = l.length + 1 := by
  induction l with
  | nil => rfl
  | cons e es ih =>
    rw [insertCandDesc]
    split
    · rw [List.length_cons, ih, List.length_cons]
    · rfl

lemma length_sortCandsDesc (l : List Cand) :
    (sortCandsDesc l).length = l.length := by
  induction l with
  | nil => rfl
  | cons e es ih =>
    rw [sortCandsDesc, length_insertCandDesc, ih, List.length_cons]

lemma length_expandPanels (ps : List PanelDetail) :
    (expandPanels ps).length = (ps.map fun p => p.quantity).sum := by
  rw [expandPanels]
  simp only [List.length_flatMap, Function.comp_def, List.length_replicate]
  have h2 : (ps.enum.map fun ip => ip.2.quantity) =
      (ps.enum.map Prod.snd).map fun p => p.quantity := by
    rw [List.map_map]
    rfl
  rw [h2, List.enum_map_snd]

lemma placeOnBoards_totalPlaced {cfg : Config} {c : Cand}
    {boards bs : List BoardLayout} (h : placeOnBoards cfg c boards = some bs) :
    totalPlaced bs = totalPlaced boards + 1 := by
  induction boards generalizing bs with
  | nil => simp [placeOnBoards] at h
  | cons b0 rest ih =>
    rw [placeOnBoards] at h
    split at h
    · rename_i pos heq
      obtain rfl : placePanel cfg b0 c pos.1 pos.2 :: rest = bs :=
        Option.some.injEq .. ▸ h
      simp only [totalPlaced, List.map_cons, List.sum_cons, placePanel,
        List.length_append, List.length_cons, List.length_nil]
      omega
    · obtain ⟨rest2, hr2, rfl⟩ := Option.map_eq_some'.mp h
      simp only [totalPlaced, List.map_cons, List.sum_cons] at *
      rw [ih hr2]
      omega

lemma placeStep_totalPlaced (cfg : Config) (boards : List BoardLayout) (c : Cand) :
    totalPlaced (placeStep cfg boards c) = totalPlaced boards + 1 := by
  rw [placeStep]
  split
  · rename_i bs heq
    exact placeOnBoards_totalPlaced heq
  · simp [totalPlaced, createNewBoard]

lemma foldl_placeStep_totalPlaced (cfg : Config) (cands : List Cand)
    (boards : List BoardLayout) :
    totalPlaced (cands.foldl (placeStep cfg) boards) =
      totalPlaced boards + cands.length := by
  induction cands generalizing boards with
  | nil => simp
  | cons c cs ih =>
    rw [List.foldl_cons, ih, placeStep_totalPlaced, List.length_cons]
    omega

/-! Facts about computeCuts: it only fills the cuts field. -/

lemma computeCuts_panels (cfg : Config) (b : BoardLayout) :
    (computeCuts cfg b).panels = b.panels := rfl

lemma computeCuts_usedArea (cfg : Config) (b : BoardLayout) :
    (computeCuts cfg b).usedAreaMm2 = b.usedAreaMm2 := rfl

lemma computeCuts_wasteArea (cfg : Config) (b : BoardLayout) :
    (computeCuts cfg b).wasteAreaMm2 = b.wasteAreaMm2 := rfl

lemma computeCuts_efficiency (cfg : Config) (b : BoardLayout) :
    (computeCuts cfg b).efficiencyPercent = b.efficiencyPercent := rfl

lemma computeCuts_panelCount (cfg : Config) (b : BoardLayout) :
    (computeCuts cfg b).panelCount = b.panelCount := rfl

lemma computeCuts_inv {cfg : Config} {b : BoardLayout} (h : BoardInv cfg b) :
    BoardInv cfg (computeCuts cfg b) :=
  ⟨h.waste_eq, h.used_eq, h.eff_eq, h.count_eq, h.pairwise_sep,
    h.tail_inBounds, h.head_origin⟩

/-! The packed boards of an optimize run. -/

lemma optimize_fst (cfg : Config) (req : CuttingRequest) :
    (optimize cfg req).1 =
      ((sortCandsDesc (expandPanels req.panels)).foldl (placeStep cfg) []).map
        (computeCuts cfg) := rfl

/-- Every board returned by optimize satisfies the board invariant. -/
lemma optimize_mem_inv {cfg : Config} {req : CuttingRequest} {b : BoardLayout}
    (hb : b ∈ (optimize cfg req).1) : BoardInv cfg b := by
  rw [optimize_fst] at hb
  obtain ⟨b0, hb0, rfl⟩ := List.mem_map.mp hb
  refine computeCuts_inv ?_
  refine foldl_placeStep_inv ?_ [] (by simp) b0 hb0
  intro c hc
  exact mem_expandPanels_area (mem_sortCandsDesc.mp hc)

/-- Sum of per-board placement counts over an optimize run. -/
lemma optimize_totalPlaced (cfg : Config) (req : CuttingRequest) :
    totalPlaced (optimize cfg req).1 = (req.panels.map fun p => p.quantity).sum := by
  rw [optimize_fst]
  have h1 : totalPlaced
      ((((sortCandsDesc (expandPanels req.panels)).foldl (placeStep cfg) [])).map
        (computeCuts cfg)) =
      totalPlaced ((sortCandsDesc (expandPanels req.panels)).foldl (placeStep cfg) []) := by
    simp only [totalPlaced, List.map_map]
    rfl
  rw [h1, foldl_placeStep_totalPlaced, length_sortCandsDesc, length_expandPanels]
  simp [totalPlaced]

/-- Placements only ever arise as mkPlaced of a candidate: a property of all
such placements is preserved by the inner board loop. -/
lemma placeOnBoards_panels_pred {cfg : Config} {P : PlacedPanel → Prop}
    {c : Cand} {boards bs : List BoardLayout}
    (hcP : ∀ x y, P (mkPlaced c x y))
    (hinv : ∀ b ∈ boards, ∀ p ∈ b.panels, P p)
    (h : placeOnBoards cfg c boards = some bs) :
    ∀ b ∈ bs, ∀ p ∈ b.panels, P p := by
  induction boards generalizing bs with
  | nil => simp [placeOnBoards] at h
  | cons b0 rest ih =>
    rw [placeOnBoards] at h
    split at h
    · rename_i pos hfp
      obtain rfl : placePanel cfg b0 c pos.1 pos.2 :: rest = bs :=
        Option.some.injEq .. ▸ h
      intro b hb
      rcases List.mem_cons.mp hb with rfl | hb
      · intro p hp
        rw [placePanel] at hp
        rcases List.mem_append.mp hp with hp | hp
        · exact hinv b0 (List.mem_cons_self b0 rest) p hp
        · rw [List.mem_singleton] at hp
          subst hp
          exact hcP _ _
      · exact hinv b (List.mem_cons_of_mem b0 hb)
    · obtain ⟨rest2, hr2, rfl⟩ := Option.map_eq_some'.mp h
      intro b hb
      rcases List.mem_cons.mp hb with rfl | hb
      · exact hinv b (List.mem_cons_self b rest)
      · exact ih (fun d hd => hinv d (List.mem_cons_of_mem b0 hd)) hr2 b hb

lemma placeStep_panels_pred {cfg : Config} {P : PlacedPanel → Prop}
    {c : Cand} {boards : List BoardLayout}
    (hcP : ∀ x y, P (mkPlaced c x y))
    (hinv : ∀ b ∈ boards, ∀ p ∈ b.panels, P p) :
    ∀ b ∈ placeStep cfg boards c, ∀ p ∈ b.panels, P p := by
  rw [placeStep]
  split
  · rename_i bs heq
    exact placeOnBoards_panels_pred hcP hinv heq
  · intro b hb
    rcases List.mem_append.mp hb with hb | hb
    · exact hinv b hb
    · rw [List.mem_singleton] at hb
      subst hb
      intro p hp
      rw [createNewBoard] at hp
      rw [List.mem_singleton] at hp
      subst hp
      exact hcP _ _

/-- Such a property propagates through the whole packing fold. -/
lemma foldl_panels_pred (cfg : Config) (P : PlacedPanel → Prop) {cands : List Cand}
    (hc : ∀ c ∈ cands, ∀ x y, P (mkPlaced c x y)) :
    ∀ boards, (∀ b ∈ boards, ∀ p ∈ b.panels, P p) →
      ∀ b ∈ cands.foldl (placeStep cfg) boards, ∀ p ∈ b.panels, P p := by
  induction cands with
  | nil => intro boards hinv; simpa using hinv
  | cons c cs ih =>
    intro boards hinv
    rw [List.foldl_cons]
    exact ih (fun d hd => hc d (List.mem_cons_of_mem c hd)) _
      (placeStep_panels_pred (hc c (List.mem_cons_self c cs)) hinv)

/-- Lifted to the optimize output. -/
lemma optimize_panels_pred {cfg : Config} {req : CuttingRequest}
    (P : PlacedPanel → Prop)
    (hreq : ∀ s ∈ req.panels, ∀ pidx x y lbl,
      P { panelIndex := pidx, x := x, y := y, width := s.width,
          length := s.length, label := lbl }) :
    ∀ b ∈ (optimize cfg req).1, ∀ p ∈ b.panels, P p := by
  intro b hb
  rw [optimize_fst] at hb
  obtain ⟨b0, hb0, rfl⟩ := List.mem_map.mp hb
  rw [computeCuts_panels]
  refine foldl_panels_pred cfg P ?_ [] (by simp) b0 hb0
  intro c hc x y
  obtain ⟨s, hs, hw, hl, -⟩ := mem_expandPanels (mem_sortCandsDesc.mp hc)
  have := hreq s hs c.panelIndex x y c.label
  rw [← hw, ← hl] at this
  exact this

lemma reqA_boards : (optimize_cutting reqA).1 = [boardA] := rfl

lemma reqBig_boards : (optimize_cutting reqBig).1 = [boardBig] := rfl

/-! Claim theorems. -/

/-- C7: for every input, the sum over returned boards of their placement
counts equals the total candidate count, which equals the sum over the input
panel specs of their quantities; the panel_count fields agree with the
placement lists, so no candidate is dropped and none is placed twice. -/
theorem c7_placement_conservation (cfg : Config) (req : CuttingRequest) :
    ((optimize cfg req).1.map fun b => b.panels.length).sum
      = (expandPanels req.panels).length ∧
    (expandPanels req.panels).length = (req.panels.map fun p => p.quantity).sum ∧
    ((optimize cfg req).1.map fun b => b.panelCount).sum
      = (req.panels.map fun p => p.quantity).sum := by
  have h1 := optimize_totalPlaced cfg req
  rw [totalPlaced] at h1
  have h2 := length_expandPanels req.panels
  refine ⟨by rw [h1, h2], h2, ?_⟩
  have h3 : ((optimize cfg req).1.map fun b => b.panelCount)
      = (optimize cfg req).1.map fun b => b.panels.length :=
    List.map_congr_left fun b hb => (optimize_mem_inv hb).count_eq
  rw [h3, h1]

set_option maxRecDepth 40000 in
/-- C1 counterexample: a valid input (every spec fits the default board) on
which the returned board holds two placements whose rectangles, each expanded
by the full kerf on all four sides, overlap: the run places the two 1217 by 15
panels at (0,0) and (0,20), a 5 mm gap, less than twice the 3 mm kerf. -/
theorem c1_kerf_expansion_cex :
    (∀ s ∈ req17.panels, 0 < s.width ∧ s.width ≤ defaultConfig.boardWidth ∧
      0 < s.length ∧ s.length ≤ defaultConfig.boardLength) ∧
    ∃ b ∈ (optimize_cutting req17).1, ∃ p ∈ b.panels, ∃ q ∈ b.panels,
      p.y ≠ q.y ∧ kerfExpandedOverlap defaultConfig.kerf p q := by
  have hf : findPosition defaultConfig board17a cand17 = some (0, 20) := by
    norm_num [findPosition, scanRows, scanRow, gridCoords, gridCount, pyInt,
      defaultConfig, DEFAULT_BOARD_WIDTH_MM, DEFAULT_BOARD_LENGTH_MM, DEFAULT_KERF_MM,
      board17a, createNewBoard, cand17, mkPlaced, canPlace, Config.boardArea,
      List.range', Rat.num_ofNat, Rat.den_ofNat]
  have hrun : (optimize_cutting req17).1 = [computeCuts defaultConfig board17b] := by
    have hs : sortCandsDesc (expandPanels req17.panels) = [cand17, cand17] := by
      norm_num [req17, expandPanels, sortCandsDesc, insertCandDesc, cand17, List.enum]
    show (optimize defaultConfig req17).1 = _
    rw [optimize]
    simp only [hs, List.foldl_cons, List.foldl_nil]
    rw [show placeStep defaultConfig [] cand17 = [board17a] from rfl]
    rw [placeStep, placeOnBoards, hf]
    rfl
  constructor
  · intro s hs
    simp only [req17, List.mem_singleton] at hs
    subst hs
    norm_num [defaultConfig, DEFAULT_BOARD_WIDTH_MM, DEFAULT_BOARD_LENGTH_MM]
  · refine ⟨computeCuts defaultConfig board17b, by rw [hrun]; exact List.mem_singleton.mpr rfl,
      mkPlaced cand17 0 0, ?_, mkPlaced cand17 0 20, ?_, ?_, ?_⟩
    · rw [computeCuts_panels]
      show mkPlaced cand17 0 0 ∈ [mkPlaced cand17 0 0, mkPlaced cand17 0 20]
      simp
    · rw [computeCuts_panels]
      show mkPlaced cand17 0 20 ∈ [mkPlaced cand17 0 0, mkPlaced cand17 0 20]
      simp
    · norm_num [mkPlaced]
    · norm_num [kerfExpandedOverlap, mkPlaced, cand17, defaultConfig, DEFAULT_KERF_MM]

/-- C1 amended: in every returned layout, no two placements on one board
overlap once each is expanded by HALF the kerf on all four sides
(equivalently, any two placements are separated by at least the kerf on some
axis); this holds for every input, in particular for every valid one. -/
theorem c1_no_overlap_half_kerf (cfg : Config) (req : CuttingRequest) :
    ∀ b ∈ (optimize cfg req).1,
      b.panels.Pairwise fun p q => ¬ kerfExpandedOverlap (cfg.kerf / 2) p q := by
  intro b hb
  exact (optimize_mem_inv hb).pairwise_sep.imp
    fun h => separatedP_iff_not_overlap_half.mp h

/-- Witness for the amended C1 on the scenario A run. -/
theorem c1_no_overlap_half_kerf_witness :
    boardA ∈ (optimize_cutting reqA).1 ∧
      boardA.panels.Pairwise
        fun p q => ¬ kerfExpandedOverlap (defaultConfig.kerf / 2) p q := by
  have hm : boardA ∈ (optimize_cutting reqA).1 := by
    rw [reqA_boards]
    exact List.mem_singleton.mpr rfl
  exact ⟨hm, c1_no_overlap_half_kerf defaultConfig reqA boardA hm⟩

/-- C2 counterexample: _can_place accepts a position whose separation from an
existing placement is exactly the kerf (3 mm), while the specification demands
that the separation STRICTLY exceed the kerf. -/
theorem c2_strict_separation_cex :
    canPlace defaultConfig bcex 10 0 7 10 = true ∧
    ¬ specFeasibleStrict defaultConfig bcex 10 0 7 10 := by
  constructor
  · norm_num [canPlace, bcex, defaultConfig, DEFAULT_BOARD_WIDTH_MM,
      DEFAULT_BOARD_LENGTH_MM, DEFAULT_KERF_MM]
  · rintro ⟨-, h⟩
    have := h { panelIndex := 0, x := 0, y := 0, width := 7, length := 10,
                label := "P" } (by simp [bcex])
    norm_num [defaultConfig, DEFAULT_KERF_MM, DEFAULT_BOARD_WIDTH_MM,
      DEFAULT_BOARD_LENGTH_MM] at this

/-- C2 amended: for nonnegative coordinates (the only ones the raster scan
produces), _can_place accepts exactly when the candidate rectangle lies fully
within board bounds and, for every existing placement, the axis separation is
AT LEAST the kerf (non-strict) on at least one axis. -/
theorem c2_feasibility_iff (cfg : Config) (b : BoardLayout) (x y w l : ℚ)
    (hx : 0 ≤ x) (hy : 0 ≤ y) :
    canPlace cfg b x y w l = true ↔
      (0 ≤ x ∧ x + w ≤ cfg.boardWidth ∧ 0 ≤ y ∧ y + l ≤ cfg.boardLength) ∧
      ∀ p ∈ b.panels, x + w + cfg.kerf ≤ p.x ∨ p.x + p.width + cfg.kerf ≤ x ∨
        y + l + cfg.kerf ≤ p.y ∨ p.y + p.length + cfg.kerf ≤ y := by
  rw [canPlace_eq_true]
  constructor
  · rintro ⟨⟨h1, h2⟩, h3⟩
    exact ⟨⟨hx, h1, hy, h2⟩, h3⟩
  · rintro ⟨⟨-, h1, -, h2⟩, h3⟩
    exact ⟨⟨h1, h2⟩, h3⟩

/-- Witness for the amended C2 at the concrete accepting position. -/
theorem c2_feasibility_iff_witness :
    (0 : ℚ) ≤ 10 ∧ (0 : ℚ) ≤ 0 ∧
    (canPlace defaultConfig bcex 10 0 7 10 = true ↔
      ((0 : ℚ) ≤ 10 ∧ 10 + 7 ≤ defaultConfig.boardWidth ∧ (0 : ℚ) ≤ 0 ∧
        0 + 10 ≤ defaultConfig.boardLength) ∧
      ∀ p ∈ bcex.panels, 10 + 7 + defaultConfig.kerf ≤ p.x ∨
        p.x + p.width + defaultConfig.kerf ≤ 10 ∨
        0 + 10 + defaultConfig.kerf ≤ p.y ∨
        p.y + p.length + defaultConfig.kerf ≤ 0) :=
  ⟨by norm_num, le_refl 0,
    c2_feasibility_iff defaultConfig bcex 10 0 7 10 (by norm_num) (le_refl 0)⟩

/-- C5 counterexample: a configuration with non-positive board width,
negative board length and negative kerf is accepted without any error, and
packing runs to completion, producing a board; no rejection happens before
packing.  The optimizer has no error channel at all. -/
theorem c5_no_validation_cex :
    (badConfig.boardWidth ≤ 0 ∧ badConfig.boardLength ≤ 0 ∧ badConfig.kerf < 0) ∧
    (optimize badConfig reqOne).1.length = 1 := by
  constructor
  · norm_num [badConfig]
  · rfl

/-- C5 amended: the optimizer performs no configuration validation: even for
configurations with non-positive board dimensions or negative kerf it accepts
the input and packs every candidate (it is a total function, so it never
aborts). -/
theorem c5_invalid_config_still_packs (cfg : Config) (req : CuttingRequest)
    (_h : cfg.boardWidth ≤ 0 ∨ cfg.boardLength ≤ 0 ∨ cfg.kerf < 0) :
    ((optimize cfg req).1.map fun b => b.panels.length).sum
      = (req.panels.map fun p => p.quantity).sum :=
  optimize_totalPlaced cfg req

/-- Witness for the amended C5 with an invalid configuration. -/
theorem c5_invalid_config_still_packs_witness :
    (badConfig.boardWidth ≤ 0 ∨ badConfig.boardLength ≤ 0 ∨ badConfig.kerf < 0) ∧
    ((optimize badConfig reqOne).1.map fun b => b.panels.length).sum
      = (reqOne.panels.map fun p => p.quantity).sum :=
  ⟨Or.inl (by norm_num [badConfig]),
    c5_invalid_config_still_packs badConfig reqOne (Or.inl (by norm_num [badConfig]))⟩

/-- C9: the result of optimize_cutting depends only on the panels field:
any two requests with the same panels list give identical boards and summary,
and the configuration actually used is always the configured default
(1220 by 2440, kerf 3), never values from the request. -/
theorem c9_depends_only_on_panels :
    (∀ r1 r2 : CuttingRequest, r1.panels = r2.panels →
      optimize_cutting r1 = optimize_cutting r2) ∧
    (∀ r : CuttingRequest, optimize_cutting r =
      optimize { boardWidth := 1220, boardLength := 2440, kerf := 3 } r) := by
  constructor
  · intro r1 r2 h
    simp only [optimize_cutting, optimize, mkSummary, h]
  · intro r
    rfl

/-- Witness for C9: two requests differing in options (kerf 7 versus the
default), stock sheets, board selection, supply mode and customer fields but
sharing the panels list produce identical results. -/
theorem c9_depends_only_on_panels_witness :
    cr1.panels = cr2.panels ∧ optimize_cutting cr1 = optimize_cutting cr2 :=
  ⟨rfl, c9_depends_only_on_panels.1 cr1 cr2 rfl⟩

/-- C3 counterexample: on scenario A the board area is 1220 * 2440 = 2976800,
so the waste is 2976800 - 240000 = 2736800, not the 2537600 the claim states,
and the efficiency is 30000/3721, about 8.06 percent, not about 8.65. -/
theorem c3_scenario_a_cex :
    ((optimize_cutting reqA).1.map fun b => (b.wasteAreaMm2, b.efficiencyPercent))
      = [(2736800, 30000 / 3721)] ∧
    (2736800 : ℚ) ≠ 2537600 ∧ (30000 : ℚ) / 3721 < 82 / 10 := by
  refine ⟨?_, by norm_num, by norm_num⟩
  norm_num [optimize_cutting, optimize, defaultConfig, DEFAULT_BOARD_WIDTH_MM,
    DEFAULT_BOARD_LENGTH_MM, DEFAULT_KERF_MM, reqA, expandPanels, sortCandsDesc,
    insertCandDesc, placeStep, placeOnBoards, createNewBoard, Config.boardArea,
    mkPlaced, computeCuts, List.enum]

/-- C3 amended: scenario A yields 1 board with 1 placement at (0,0),
used_area 240000, waste_area 2736800, efficiency 30000/3721 (about 8.06
percent), and exactly 2 cut segments: a vertical one at x = 600 spanning the
full 2440 length, then a horizontal one at y = 400 spanning the full 1220
width, with ids 1 and 2. -/
theorem c3_scenario_a :
    ((optimize_cutting reqA).1.map fun b =>
        (b.panels.map fun p => (p.x, p.y, p.width, p.length),
          b.usedAreaMm2, b.wasteAreaMm2, b.efficiencyPercent,
          b.cuts.map fun c => (c.id, c.orientation, c.x1, c.y1, c.x2, c.y2, c.length))) =
      [([(0, 0, 600, 400)], 240000, 2736800, 30000 / 3721,
        [(1, "V", 600, 0, 600, 2440, 2440), (2, "H", 0, 400, 1220, 400, 1220)])] := by
  norm_num [optimize_cutting, optimize, defaultConfig, DEFAULT_BOARD_WIDTH_MM,
    DEFAULT_BOARD_LENGTH_MM, DEFAULT_KERF_MM, reqA, expandPanels, sortCandsDesc,
    insertCandDesc, placeStep, placeOnBoards, createNewBoard, Config.boardArea,
    mkPlaced, computeCuts, interiorXs, interiorYs, vCut, hCut, Function.comp,
    List.insertionSort, List.orderedInsert,
    List.dedup_cons_of_mem, List.dedup_cons_of_not_mem, List.filter, List.enum]

/-- C8: a request with an empty panel list yields zero boards and a summary
whose totals are all zero, with the waste percent defined as 0 rather than a
division fault (the board dimensions are echoed through). -/
theorem c8_empty_request (req : CuttingRequest) (h : req.panels = []) :
    optimize_cutting req =
      ([], { totalBoards := 0, totalPanels := 0, uniquePanelTypes := 0,
             totalEdgingMeters := 0, totalCuts := 0, totalCutLength := 0,
             totalWasteMm2 := 0, totalWastePercent := 0,
             boardWidth := 1220, boardLength := 2440 }) := by
  simp only [optimize_cutting, optimize, mkSummary, h]
  norm_num [expandPanels, sortCandsDesc, defaultConfig, DEFAULT_BOARD_WIDTH_MM,
    DEFAULT_BOARD_LENGTH_MM, Config.boardArea]

/-- Witness for C8 at a concrete empty request. -/
theorem c8_empty_request_witness :
    reqEmpty.panels = [] ∧
    optimize_cutting reqEmpty =
      ([], { totalBoards := 0, totalPanels := 0, uniquePanelTypes := 0,
             totalEdgingMeters := 0, totalCuts := 0, totalCutLength := 0,
             totalWasteMm2 := 0, totalWastePercent := 0,
             boardWidth := 1220, boardLength := 2440 }) :=
  ⟨rfl, c8_empty_request reqEmpty rfl⟩

/-- C10: every returned board has its first placement at the origin; when no
open board admits a candidate a new board is appended holding exactly that
candidate at (0,0) with no bounds or feasibility check; and any board holding
a placement oversized in both dimensions has negative waste and efficiency
above 100 percent. -/
theorem c10_fallback_origin_oversized :
    (∀ (cfg : Config) (req : CuttingRequest), ∀ b ∈ (optimize cfg req).1,
      ∃ p ps, b.panels = p :: ps ∧ p.x = 0 ∧ p.y = 0) ∧
    (∀ (cfg : Config) (c : Cand) (boards : List BoardLayout),
      placeOnBoards cfg c boards = none →
      placeStep cfg boards c = boards ++ [createNewBoard cfg c (boards.length + 1)] ∧
      (createNewBoard cfg c (boards.length + 1)).panels = [mkPlaced c 0 0]) ∧
    (∀ (cfg : Config) (req : CuttingRequest), 0 < cfg.boardWidth →
      0 < cfg.boardLength → (∀ s ∈ req.panels, 0 ≤ s.width ∧ 0 ≤ s.length) →
      ∀ b ∈ (optimize cfg req).1, ∀ p ∈ b.panels,
        cfg.boardWidth < p.width → cfg.boardLength < p.length →
        b.wasteAreaMm2 < 0 ∧ 100 < b.efficiencyPercent) := by
  refine ⟨?_, ?_, ?_⟩
  · intro cfg req b hb
    exact (optimize_mem_inv hb).head_origin
  · intro cfg c boards h
    exact ⟨by rw [placeStep, h], rfl⟩
  · intro cfg req hW hL hdims b hb p hp hpw hpl
    have hinv := optimize_mem_inv hb
    have hdimsP : ∀ q ∈ b.panels, 0 ≤ q.width ∧ 0 ≤ q.length := by
      intro q hq
      exact optimize_panels_pred (fun r => 0 ≤ r.width ∧ 0 ≤ r.length)
        (fun s hs pidx x y lbl => hdims s hs) b hb q hq
    have harea : cfg.boardArea < p.width * p.length := by
      rw [Config.boardArea]
      nlinarith
    have hused : p.width * p.length ≤ b.usedAreaMm2 := by
      rw [hinv.used_eq]
      refine List.single_le_sum ?_ _ (List.mem_map_of_mem _ hp)
      intro a ha
      obtain ⟨q, hq, rfl⟩ := List.mem_map.mp ha
      exact mul_nonneg (hdimsP q hq).1 (hdimsP q hq).2
    have hlt : cfg.boardArea < b.usedAreaMm2 := lt_of_lt_of_le harea hused
    constructor
    · rw [hinv.waste_eq]
      linarith
    · rw [hinv.eff_eq]
      have hA : 0 < cfg.boardArea := by
        rw [Config.boardArea]
        exact mul_pos hW hL
      have h1 : 1 < b.usedAreaMm2 / cfg.boardArea := (one_lt_div hA).mpr hlt
      linarith

/-- Witness for C10 on the oversized 3000 by 3100 candidate. -/
theorem c10_fallback_origin_oversized_witness :
    0 < defaultConfig.boardWidth ∧ 0 < defaultConfig.boardLength ∧
    (∀ s ∈ reqBig.panels, 0 ≤ s.width ∧ 0 ≤ s.length) ∧
    boardBig ∈ (optimize defaultConfig reqBig).1 ∧ pBig ∈ boardBig.panels ∧
    defaultConfig.boardWidth < pBig.width ∧
    defaultConfig.boardLength < pBig.length ∧
    boardBig.wasteAreaMm2 < 0 ∧ 100 < boardBig.efficiencyPercent := by
  have hm : boardBig ∈ (optimize defaultConfig reqBig).1 := by
    have h : (optimize defaultConfig reqBig).1 = [boardBig] := reqBig_boards
    rw [h]
    exact List.mem_singleton.mpr rfl
  have hpm : pBig ∈ boardBig.panels := List.mem_singleton.mpr rfl
  have h1 : (0 : ℚ) < defaultConfig.boardWidth := by
    norm_num [defaultConfig, DEFAULT_BOARD_WIDTH_MM]
  have h2 : (0 : ℚ) < defaultConfig.boardLength := by
    norm_num [defaultConfig, DEFAULT_BOARD_LENGTH_MM]
  have h3 : ∀ s ∈ reqBig.panels, 0 ≤ s.width ∧ 0 ≤ s.length := by
    intro s hs
    simp only [reqBig, List.mem_singleton] at hs
    subst hs
    norm_num
  have h4 : defaultConfig.boardWidth < pBig.width := by
    norm_num [defaultConfig, DEFAULT_BOARD_WIDTH_MM, pBig, mkPlaced, candBig]
  have h5 : defaultConfig.boardLength < pBig.length := by
    norm_num [defaultConfig, DEFAULT_BOARD_LENGTH_MM, pBig, mkPlaced, candBig]
  exact ⟨h1, h2, h3, hm, hpm, h4, h5,
    c10_fallback_origin_oversized.2.2 defaultConfig reqBig h1 h2 h3 boardBig hm
      pBig hpm h4 h5⟩

lemma measurableSet_rectSet (p : PlacedPanel) : MeasurableSet (rectSet p) :=
  measurableSet_Ioo.prod measurableSet_Ioo

open MeasureTheory in
lemma volume_rectSet {p : PlacedPanel} (hw : 0 ≤ p.width) (_hl : 0 ≤ p.length) :
    volume (rectSet p) = ENNReal.ofReal ((p.width : ℝ) * (p.length : ℝ)) := by
  rw [rectSet, Measure.volume_eq_prod, Measure.prod_prod, Real.volume_Ioo,
    Real.volume_Ioo, add_sub_cancel_left, add_sub_cancel_left,
    ← ENNReal.ofReal_mul (by exact_mod_cast hw)]

lemma disjoint_rectSet {k : ℚ} (hk : 0 ≤ k) {p q : PlacedPanel}
    (h : separatedP k p q) : Disjoint (rectSet p) (rectSet q) := by
  rw [Set.disjoint_left]
  rintro ⟨a, b⟩ ⟨⟨ha1, ha2⟩, hb1, hb2⟩ ⟨⟨hc1, hc2⟩, hd1, hd2⟩
  have hk0 : (0 : ℝ) ≤ (k : ℝ) := by exact_mod_cast hk
  rcases h with h | h | h | h
  · have hr : (p.x : ℝ) + (p.width : ℝ) + (k : ℝ) ≤ (q.x : ℝ) := by exact_mod_cast h
    linarith
  · have hr : (q.x : ℝ) + (q.width : ℝ) + (k : ℝ) ≤ (p.x : ℝ) := by exact_mod_cast h
    linarith
  · have hr : (p.y : ℝ) + (p.length : ℝ) + (k : ℝ) ≤ (q.y : ℝ) := by exact_mod_cast h
    linarith
  · have hr : (q.y : ℝ) + (q.length : ℝ) + (k : ℝ) ≤ (p.y : ℝ) := by exact_mod_cast h
    linarith

lemma rectSet_subset_box {cfg : Config} {p : PlacedPanel} (hb : inBoundsP cfg p) :
    rectSet p ⊆
      Set.Icc (0 : ℝ) (cfg.boardWidth : ℝ) ×ˢ
        Set.Icc (0 : ℝ) (cfg.boardLength : ℝ) := by
  obtain ⟨h1, h2, h3, h4⟩ := hb
  apply Set.prod_mono
  · refine Set.Ioo_subset_Icc_self.trans (Set.Icc_subset_Icc ?_ ?_)
    · exact_mod_cast h1
    · exact_mod_cast h2
  · refine Set.Ioo_subset_Icc_self.trans (Set.Icc_subset_Icc ?_ ?_)
    · exact_mod_cast h3
    · exact_mod_cast h4

open MeasureTheory in
lemma volume_biUnion_rectSet :
    ∀ (l : List PlacedPanel), l.Pairwise (fun p q => Disjoint (rectSet p) (rectSet q)) →
      volume (⋃ p ∈ l, rectSet p) = (l.map fun p => volume (rectSet p)).sum
  | [], _ => by simp
  | a :: t, hl => by
    rw [List.pairwise_cons] at hl
    have hu : (⋃ p ∈ (a :: t), rectSet p) = rectSet a ∪ ⋃ p ∈ t, rectSet p := by
      ext z
      simp [Set.mem_iUnion, List.mem_cons, or_and_right, exists_or]
    have hmeas : MeasurableSet (⋃ p ∈ t, rectSet p) :=
      MeasurableSet.biUnion t.finite_toSet.countable
        fun p _ => measurableSet_rectSet p
    have hdisj : Disjoint (rectSet a) (⋃ p ∈ t, rectSet p) := by
      rw [Set.disjoint_iUnion_right]
      intro p
      rw [Set.disjoint_iUnion_right]
      intro hp
      exact hl.1 p hp
    rw [hu, measure_union hdisj hmeas, volume_biUnion_rectSet t hl.2,
      List.map_cons, List.sum_cons]

open MeasureTheory in
lemma sum_volume_rectSet :
    ∀ (m : List PlacedPanel), (∀ p ∈ m, 0 ≤ p.width ∧ 0 ≤ p.length) →
      (m.map fun p => volume (rectSet p)).sum
        = ENNReal.ofReal (((m.map fun p => p.width * p.length).sum : ℚ) : ℝ)
  | [], _ => by simp
  | a :: t, hm => by
    have ha := hm a (List.mem_cons_self a t)
    have ha0 : (0 : ℝ) ≤ (a.width : ℝ) * (a.length : ℝ) :=
      mul_nonneg (by exact_mod_cast ha.1) (by exact_mod_cast ha.2)
    have hsum : (0 : ℝ) ≤ (((t.map fun p => p.width * p.length).sum : ℚ) : ℝ) := by
      have h0 : (0 : ℚ) ≤ (t.map fun p => p.width * p.length).sum := by
        refine List.sum_nonneg ?_
        intro z hz
        obtain ⟨q, hq, rfl⟩ := List.mem_map.mp hz
        exact mul_nonneg (hm q (List.mem_cons_of_mem a hq)).1
          (hm q (List.mem_cons_of_mem a hq)).2
      exact_mod_cast h0
    rw [List.map_cons, List.sum_cons, volume_rectSet ha.1 ha.2,
      sum_volume_rectSet t (fun p hp => hm p (List.mem_cons_of_mem a hp)),
      ← ENNReal.ofReal_add ha0 hsum]
    congr 1
    rw [List.map_cons, List.sum_cons]
    push_cast
    ring

open MeasureTheory in
/-- Pairwise separated (under a nonnegative kerf), in-bounds placements of
nonnegative dimensions have total area at most the board area. -/
lemma sum_areas_le {cfg : Config} (hW : 0 ≤ cfg.boardWidth)
    (hL : 0 ≤ cfg.boardLength) (hk : 0 ≤ cfg.kerf) (l : List PlacedPanel)
    (hdims : ∀ p ∈ l, 0 ≤ p.width ∧ 0 ≤ p.length)
    (hbounds : ∀ p ∈ l, inBoundsP cfg p)
    (hsep : l.Pairwise (separatedP cfg.kerf)) :
    (l.map fun p => p.width * p.length).sum
      ≤ cfg.boardWidth * cfg.boardLength := by
  have h1 : volume (⋃ p ∈ l, rectSet p) = (l.map fun p => volume (rectSet p)).sum :=
    volume_biUnion_rectSet l (hsep.imp fun h => disjoint_rectSet hk h)
  have h3 : (⋃ p ∈ l, rectSet p) ⊆
      Set.Icc (0 : ℝ) (cfg.boardWidth : ℝ) ×ˢ
        Set.Icc (0 : ℝ) (cfg.boardLength : ℝ) :=
    Set.iUnion₂_subset fun p hp => rectSet_subset_box (hbounds p hp)
  have h4 : volume (Set.Icc (0 : ℝ) (cfg.boardWidth : ℝ) ×ˢ
      Set.Icc (0 : ℝ) (cfg.boardLength : ℝ))
      = ENNReal.ofReal ((cfg.boardWidth : ℝ) * (cfg.boardLength : ℝ)) := by
    rw [Measure.volume_eq_prod, Measure.prod_prod, Real.volume_Icc,
      Real.volume_Icc, sub_zero, sub_zero,
      ← ENNReal.ofReal_mul (by exact_mod_cast hW)]
  have h5 : volume (⋃ p ∈ l, rectSet p) ≤
      ENNReal.ofReal ((cfg.boardWidth : ℝ) * (cfg.boardLength : ℝ)) := by
    rw [← h4]
    exact measure_mono h3
  rw [h1, sum_volume_rectSet l hdims] at h5
  have hWL : (0 : ℝ) ≤ (cfg.boardWidth : ℝ) * (cfg.boardLength : ℝ) :=
    mul_nonneg (by exact_mod_cast hW) (by exact_mod_cast hL)
  have h6 := (ENNReal.ofReal_le_ofReal_iff hWL).mp h5
  exact_mod_cast h6

/-- C4: accounting invariants.  After every placement (both when a board is
created and when a placement is added to one), used + waste equals the board
area and the efficiency equals used / board_area * 100; in the returned
layouts the same holds, the efficiency is nonnegative, and it is at most 100
for every board all of whose placements lie in bounds, which covers every
board not created by the oversized-candidate fallback. -/
theorem c4_area_accounting (cfg : Config) (req : CuttingRequest)
    (hW : 0 ≤ cfg.boardWidth) (hL : 0 ≤ cfg.boardLength) (hk : 0 ≤ cfg.kerf)
    (hdims : ∀ s ∈ req.panels, 0 ≤ s.width ∧ 0 ≤ s.length) :
    (∀ (b : BoardLayout) (c : Cand) (x y : ℚ),
      (placePanel cfg b c x y).usedAreaMm2 + (placePanel cfg b c x y).wasteAreaMm2
          = cfg.boardWidth * cfg.boardLength ∧
      (placePanel cfg b c x y).efficiencyPercent
          = (placePanel cfg b c x y).usedAreaMm2
              / (cfg.boardWidth * cfg.boardLength) * 100) ∧
    (∀ (c : Cand) (n : ℕ),
      (createNewBoard cfg c n).usedAreaMm2 + (createNewBoard cfg c n).wasteAreaMm2
          = cfg.boardWidth * cfg.boardLength ∧
      (createNewBoard cfg c n).efficiencyPercent
          = (createNewBoard cfg c n).usedAreaMm2
              / (cfg.boardWidth * cfg.boardLength) * 100) ∧
    (∀ b ∈ (optimize cfg req).1,
      b.usedAreaMm2 + b.wasteAreaMm2 = cfg.boardWidth * cfg.boardLength ∧
      b.efficiencyPercent = b.usedAreaMm2 / (cfg.boardWidth * cfg.boardLength) * 100 ∧
      0 ≤ b.efficiencyPercent ∧
      ((∀ p ∈ b.panels, inBoundsP cfg p) → b.efficiencyPercent ≤ 100)) := by
  have hAeq : cfg.boardArea = cfg.boardWidth * cfg.boardLength := rfl
  have hA : 0 ≤ cfg.boardArea := by
    rw [hAeq]
    exact mul_nonneg hW hL
  refine ⟨?_, ?_, ?_⟩
  · intro b c x y
    constructor
    · show (b.usedAreaMm2 + c.area) + (cfg.boardArea - (b.usedAreaMm2 + c.area)) = _
      rw [hAeq]
      ring
    · show (if cfg.boardArea ≠ 0 then (b.usedAreaMm2 + c.area) / cfg.boardArea * 100
          else 0)
        = (b.usedAreaMm2 + c.area) / (cfg.boardWidth * cfg.boardLength) * 100
      rw [effIf, hAeq]
  · intro c n
    constructor
    · show c.area + (cfg.boardArea - c.area) = _
      rw [hAeq]
      ring
    · show (if cfg.boardArea ≠ 0 then c.area / cfg.boardArea * 100 else 0)
        = c.area / (cfg.boardWidth * cfg.boardLength) * 100
      rw [effIf, hAeq]
  · intro b hb
    have hinv := optimize_mem_inv hb
    have hdimsP : ∀ q ∈ b.panels, 0 ≤ q.width ∧ 0 ≤ q.length := fun q hq =>
      optimize_panels_pred (fun r => 0 ≤ r.width ∧ 0 ≤ r.length)
        (fun s hs pidx x y lbl => hdims s hs) b hb q hq
    have hu0 : 0 ≤ b.usedAreaMm2 := by
      rw [hinv.used_eq]
      refine List.sum_nonneg ?_
      intro z hz
      obtain ⟨q, hq, rfl⟩ := List.mem_map.mp hz
      exact mul_nonneg (hdimsP q hq).1 (hdimsP q hq).2
    refine ⟨?_, ?_, ?_, ?_⟩
    · rw [hinv.waste_eq, hAeq]
      ring
    · rw [hinv.eff_eq, hAeq]
    · rw [hinv.eff_eq]
      exact mul_nonneg (div_nonneg hu0 hA) (by norm_num)
    · intro hbnd
      have hsum := sum_areas_le hW hL hk b.panels hdimsP hbnd hinv.pairwise_sep
      have hule : b.usedAreaMm2 ≤ cfg.boardArea := by
        rw [hinv.used_eq, hAeq]
        exact hsum
      rw [hinv.eff_eq]
      rcases eq_or_lt_of_le hA with hA0 | hA0
      · rw [← hA0, div_zero, zero_mul]
        norm_num
      · have h7 : b.usedAreaMm2 / cfg.boardArea ≤ 1 := (div_le_one hA0).mpr hule
        linarith

/-- Witness for C4 on the scenario A run with the default configuration. -/
theorem c4_area_accounting_witness :
    (0 ≤ defaultConfig.boardWidth ∧ 0 ≤ defaultConfig.boardLength ∧
      0 ≤ defaultConfig.kerf ∧ (∀ s ∈ reqA.panels, 0 ≤ s.width ∧ 0 ≤ s.length)) ∧
    (∀ b ∈ (optimize defaultConfig reqA).1,
      b.usedAreaMm2 + b.wasteAreaMm2
          = defaultConfig.boardWidth * defaultConfig.boardLength ∧
      b.efficiencyPercent = b.usedAreaMm2
          / (defaultConfig.boardWidth * defaultConfig.boardLength) * 100 ∧
      0 ≤ b.efficiencyPercent ∧
      ((∀ p ∈ b.panels, inBoundsP defaultConfig p) → b.efficiencyPercent ≤ 100)) := by
  have h1 : (0 : ℚ) ≤ defaultConfig.boardWidth := by
    norm_num [defaultConfig, DEFAULT_BOARD_WIDTH_MM]
  have h2 : (0 : ℚ) ≤ defaultConfig.boardLength := by
    norm_num [defaultConfig, DEFAULT_BOARD_LENGTH_MM]
  have h3 : (0 : ℚ) ≤ defaultConfig.kerf := by
    norm_num [defaultConfig, DEFAULT_KERF_MM]
  have h4 : ∀ s ∈ reqA.panels, 0 ≤ s.width ∧ 0 ≤ s.length := by
    intro s hs
    simp only [reqA, List.mem_singleton] at hs
    subst hs
    norm_num
  exact ⟨⟨h1, h2, h3, h4⟩,
    (c4_area_accounting defaultConfig reqA h1 h2 h3 h4).2.2⟩

lemma sorted_nodup_insertionSort (l : List ℚ) (h : l.Nodup) :
    (List.insertionSort (· ≤ ·) l).Pairwise (· < ·) := by
  have hs : (List.insertionSort (· ≤ ·) l).Pairwise (· ≤ ·) :=
    List.sorted_insertionSort (· ≤ ·) l
  have hn : (List.insertionSort (· ≤ ·) l).Pairwise (· ≠ ·) :=
    (List.perm_insertionSort (· ≤ ·) l).nodup_iff.mpr h
  exact (hs.and hn).imp fun h => lt_of_le_of_ne h.1 h.2

lemma pairwise_lt_interiorXs (cfg : Config) (b : BoardLayout) :
    (interiorXs cfg b).Pairwise (· < ·) :=
  List.Pairwise.filter _
    (sorted_nodup_insertionSort _ (List.nodup_dedup _))

lemma pairwise_lt_interiorYs (cfg : Config) (b : BoardLayout) :
    (interiorYs cfg b).Pairwise (· < ·) :=
  List.Pairwise.filter _
    (sorted_nodup_insertionSort _ (List.nodup_dedup _))

lemma mem_interiorXs {cfg : Config} {b : BoardLayout} {x : ℚ} :
    x ∈ interiorXs cfg b ↔ 0 < x ∧ x < cfg.boardWidth ∧ isXEdge b x := by
  rw [interiorXs, List.mem_filter, decide_eq_true_eq,
    (List.perm_insertionSort (· ≤ ·) _).mem_iff, List.mem_dedup, List.mem_flatMap]
  unfold isXEdge
  constructor
  · rintro ⟨⟨p, hp, hx⟩, h1, h2⟩
    simp only [List.mem_cons, List.mem_singleton, List.not_mem_nil, or_false] at hx
    exact ⟨h1, h2, p, hp, by tauto⟩
  · rintro ⟨h1, h2, p, hp, hx⟩
    refine ⟨⟨p, hp, ?_⟩, h1, h2⟩
    simp only [List.mem_cons, List.mem_singleton, List.not_mem_nil, or_false]
    tauto

lemma mem_interiorYs {cfg : Config} {b : BoardLayout} {y : ℚ} :
    y ∈ interiorYs cfg b ↔ 0 < y ∧ y < cfg.boardLength ∧ isYEdge b y := by
  rw [interiorYs, List.mem_filter, decide_eq_true_eq,
    (List.perm_insertionSort (· ≤ ·) _).mem_iff, List.mem_dedup, List.mem_flatMap]
  unfold isYEdge
  constructor
  · rintro ⟨⟨p, hp, hy⟩, h1, h2⟩
    simp only [List.mem_cons, List.mem_singleton, List.not_mem_nil, or_false] at hy
    exact ⟨h1, h2, p, hp, by tauto⟩
  · rintro ⟨h1, h2, p, hp, hy⟩
    refine ⟨⟨p, hp, ?_⟩, h1, h2⟩
    simp only [List.mem_cons, List.mem_singleton, List.not_mem_nil, or_false]
    tauto

lemma enum_map_fst_succ {α : Type} (l : List α) :
    (l.enum.map fun ix => ix.1 + 1) = List.range' 1 l.length := by
  have h1 : (l.enum.map fun ix => ix.1 + 1)
      = (l.enum.map Prod.fst).map fun i => i + 1 := by
    rw [List.map_map]
    rfl
  rw [h1, List.enum_map_fst, List.range'_eq_map_range]
  exact List.map_congr_left fun i _ => Nat.add_comm i 1

lemma enum_map_fst_offset {α : Type} (n : ℕ) (l : List α) :
    (l.enum.map fun ix => n + ix.1 + 1) = List.range' (1 + n) l.length := by
  have h1 : (l.enum.map fun ix => n + ix.1 + 1)
      = (l.enum.map Prod.fst).map fun i => n + i + 1 := by
    rw [List.map_map]
    rfl
  rw [h1, List.enum_map_fst, List.range'_eq_map_range]
  exact List.map_congr_left fun i _ => by omega

lemma computeCuts_structure (cfg : Config) (b0 : BoardLayout) :
    ∃ V H, (computeCuts cfg b0).cuts = V ++ H ∧
      ((computeCuts cfg b0).cuts.map fun c => c.id)
        = List.range' 1 (computeCuts cfg b0).cuts.length ∧
      (∀ c ∈ V, c.orientation = "V" ∧ c.y1 = 0 ∧ c.y2 = cfg.boardLength ∧
        c.x2 = c.x1 ∧ c.length = cfg.boardLength) ∧
      (∀ c ∈ H, c.orientation = "H" ∧ c.x1 = 0 ∧ c.x2 = cfg.boardWidth ∧
        c.y2 = c.y1 ∧ c.length = cfg.boardWidth) ∧
      (V.map fun c => c.x1).Pairwise (· < ·) ∧
      (H.map fun c => c.y1).Pairwise (· < ·) ∧
      (∀ x, x ∈ V.map (fun c => c.x1) ↔
        0 < x ∧ x < cfg.boardWidth ∧ isXEdge (computeCuts cfg b0) x) ∧
      (∀ y, y ∈ H.map (fun c => c.y1) ↔
        0 < y ∧ y < cfg.boardLength ∧ isYEdge (computeCuts cfg b0) y) := by
  refine ⟨(interiorXs cfg b0).enum.map (vCut cfg),
    (interiorYs cfg b0).enum.map (hCut cfg (interiorXs cfg b0).length),
    rfl, ?_, ?_, ?_, ?_, ?_, ?_, ?_⟩
  · have hV : ((interiorXs cfg b0).enum.map (vCut cfg)).map (fun c => c.id)
        = List.range' 1 (interiorXs cfg b0).length := by
      rw [List.map_map]
      exact enum_map_fst_succ _
    have hH : ((interiorYs cfg b0).enum.map
          (hCut cfg (interiorXs cfg b0).length)).map (fun c => c.id)
        = List.range' (1 + (interiorXs cfg b0).length) (interiorYs cfg b0).length := by
      rw [List.map_map]
      exact enum_map_fst_offset _ _
    show (((interiorXs cfg b0).enum.map (vCut cfg)) ++
        ((interiorYs cfg b0).enum.map (hCut cfg (interiorXs cfg b0).length))).map
          (fun c => c.id) = _
    rw [List.map_append, hV, hH, List.range'_append_1]
    congr 1
    show _ = ((interiorXs cfg b0).enum.map (vCut cfg) ++
        (interiorYs cfg b0).enum.map (hCut cfg (interiorXs cfg b0).length)).length
    simp only [List.length_append, List.length_map, List.enum_length]
    omega
  · intro c hc
    obtain ⟨ix, hix, rfl⟩ := List.mem_map.mp hc
    exact ⟨rfl, rfl, rfl, rfl, rfl⟩
  · intro c hc
    obtain ⟨iy, hiy, rfl⟩ := List.mem_map.mp hc
    exact ⟨rfl, rfl, rfl, rfl, rfl⟩
  · have h : ((interiorXs cfg b0).enum.map (vCut cfg)).map (fun c => c.x1)
        = interiorXs cfg b0 := by
      rw [List.map_map]
      exact List.enum_map_snd _
    rw [h]
    exact pairwise_lt_interiorXs cfg b0
  · have h : ((interiorYs cfg b0).enum.map
          (hCut cfg (interiorXs cfg b0).length)).map (fun c => c.y1)
        = interiorYs cfg b0 := by
      rw [List.map_map]
      exact List.enum_map_snd _
    rw [h]
    exact pairwise_lt_interiorYs cfg b0
  · intro x
    have h : ((interiorXs cfg b0).enum.map (vCut cfg)).map (fun c => c.x1)
        = interiorXs cfg b0 := by
      rw [List.map_map]
      exact List.enum_map_snd _
    rw [h]
    exact mem_interiorXs
  · intro y
    have h : ((interiorYs cfg b0).enum.map
          (hCut cfg (interiorXs cfg b0).length)).map (fun c => c.y1)
        = interiorYs cfg b0 := by
      rw [List.map_map]
      exact List.enum_map_snd _
    rw [h]
    exact mem_interiorYs

/-- C6: for every finalized board, the cut list is the vertical cuts in
strictly increasing x followed by the horizontal cuts in strictly increasing
y; the vertical x coordinates are exactly the interior left/right edges of the
placements and symmetrically for y; every vertical cut spans the full board
length (x1 = x2, y from 0 to board_length, length = board_length) and every
horizontal cut the full board width; ids ascend from 1 across the whole
list. -/
theorem c6_cut_structure (cfg : Config) (req : CuttingRequest) :
    ∀ b ∈ (optimize cfg req).1, ∃ V H, b.cuts = V ++ H ∧
      (b.cuts.map fun c => c.id) = List.range' 1 b.cuts.length ∧
      (∀ c ∈ V, c.orientation = "V" ∧ c.y1 = 0 ∧ c.y2 = cfg.boardLength ∧
        c.x2 = c.x1 ∧ c.length = cfg.boardLength) ∧
      (∀ c ∈ H, c.orientation = "H" ∧ c.x1 = 0 ∧ c.x2 = cfg.boardWidth ∧
        c.y2 = c.y1 ∧ c.length = cfg.boardWidth) ∧
      (V.map fun c => c.x1).Pairwise (· < ·) ∧
      (H.map fun c => c.y1).Pairwise (· < ·) ∧
      (∀ x, x ∈ V.map (fun c => c.x1) ↔
        0 < x ∧ x < cfg.boardWidth ∧ isXEdge b x) ∧
      (∀ y, y ∈ H.map (fun c => c.y1) ↔
        0 < y ∧ y < cfg.boardLength ∧ isYEdge b y) := by
  intro b hb
  rw [optimize_fst] at hb
  obtain ⟨b0, hb0, rfl⟩ := List.mem_map.mp hb
  exact computeCuts_structure cfg b0

/-- Witness for C6 on the scenario A board. -/
theorem c6_cut_structure_witness :
    boardA ∈ (optimize defaultConfig reqA).1 ∧
    (∃ V H, boardA.cuts = V ++ H ∧
      (boardA.cuts.map fun c => c.id) = List.range' 1 boardA.cuts.length ∧
      (∀ c ∈ V, c.orientation = "V" ∧ c.y1 = 0 ∧
        c.y2 = defaultConfig.boardLength ∧ c.x2 = c.x1 ∧
        c.length = defaultConfig.boardLength) ∧
      (∀ c ∈ H, c.orientation = "H" ∧ c.x1 = 0 ∧
        c.x2 = defaultConfig.boardWidth ∧ c.y2 = c.y1 ∧
        c.length = defaultConfig.boardWidth) ∧
      (V.map fun c => c.x1).Pairwise (· < ·) ∧
      (H.map fun c => c.y1).Pairwise (· < ·) ∧
      (∀ x, x ∈ V.map (fun c => c.x1) ↔
        0 < x ∧ x < defaultConfig.boardWidth ∧ isXEdge boardA x) ∧
      (∀ y, y ∈ H.map (fun c => c.y1) ↔
        0 < y ∧ y < defaultConfig.boardLength ∧ isYEdge boardA y)) := by
  have hm : boardA ∈ (optimize defaultConfig reqA).1 := by
    have h : (optimize defaultConfig reqA).1 = [boardA] := reqA_boards
    rw [h]
    exact List.mem_singleton.mpr rfl
  exact ⟨hm, c6_cut_structure defaultConfig reqA boardA hm⟩

end PanelCut
